import Mathlib

/-!
Verification of the value representation and conversion layer of the
starlark runtime core: the two-tier integer representation and its
native conversion protocol (values/types/bigint/convert.rs), the bulk
dict unpacking helper (values/types/dict/unpack.rs), and the struct
record type (values/types/structs.rs).

Machine integers are modelled as unbounded Int with explicit range
checks where the code checks ranges.  Fallible operations return
Option (absence signal) or Except (hard error), matching the split in
the code between Option and anyhow::Result.
-/

set_option maxHeartbeats 1000000
set_option maxRecDepth 40000

/-- Error type standing for anyhow::Error / ValueError in the code.  The
unsupported constructor corresponds to ValueError::unsupported_with. -/
inductive StarlarkError where
  | unsupported (op : String)
  | msg (s : String)
  deriving DecidableEq

instance {ε α : Type} [DecidableEq ε] [DecidableEq α] : DecidableEq (Except ε α) := by
  intro x y
  cases x <;> cases y
  case error.error a b =>
    exact if h : a = b then .isTrue (by rw [h]) else .isFalse (by intro hc; cases hc; exact h rfl)
  case ok.ok a b =>
    exact if h : a = b then .isTrue (by rw [h]) else .isFalse (by intro hc; cases hc; exact h rfl)
  case error.ok a b => exact .isFalse (by intro hc; cases hc)
  case ok.error a b => exact .isFalse (by intro hc; cases hc)

/-! ## Integer representation (values/types/bigint/convert.rs) -/

/-- Lower bound of the inline 32-bit integer range. -/
def i32Min : Int := -(2 ^ 31)

/-- Upper bound of the inline 32-bit integer range. -/
def i32Max : Int := 2 ^ 31 - 1

/-- Modelled from the spec: the two-variant integer backing of
values/types/int_or_big.rs (not under src); Small is the inline
machine-width variant, Big the boxed arbitrary-precision variant. -/
inductive StarlarkInt where
  | small (i : Int)
  | big (i : Int)
  deriving DecidableEq

/-- Modelled from the spec: StarlarkInt::from chooses Small when the value
fits the inline range, else Big; callers never choose the variant. -/
def StarlarkInt.ofInt (x : Int) : StarlarkInt :=
  if i32Min ≤ x ∧ x ≤ i32Max then .small x else .big x

/-- Mathematical value of an integer backing, either variant. -/
def StarlarkInt.toInt : StarlarkInt → Int
  | .small i => i
  | .big i => i

/-- A dynamic value as seen by the integer conversion protocol: either an
integer (with its two-variant backing) or any non-integer value. -/
inductive DynValue where
  | int (n : StarlarkInt)
  | nonInt
  deriving DecidableEq

/-- AllocValue for u32/u64/i64/usize/isize (convert.rs lines 40-140): every
width funnels through heap.alloc of StarlarkInt::from of the value. -/
def allocIntValue (x : Int) : DynValue := .int (.ofInt x)

/-- Modelled from the spec: Value::unpack_integer narrows the backing
integer to the requested native range, returning absence when the value
is out of range or not an integer at all. -/
def unpackInteger (lo hi : Int) : DynValue → Option Int
  | .int n => if lo ≤ n.toInt ∧ n.toInt ≤ hi then some n.toInt else none
  | .nonInt => none

/-- UnpackValue for u32 (convert.rs lines 163-167). -/
def unpackU32 : DynValue → Option Int := unpackInteger 0 (2 ^ 32 - 1)

/-- UnpackValue for u64 (convert.rs lines 169-173). -/
def unpackU64 : DynValue → Option Int := unpackInteger 0 (2 ^ 64 - 1)

/-- UnpackValue for i64 (convert.rs lines 175-179). -/
def unpackI64 : DynValue → Option Int := unpackInteger (-(2 ^ 63)) (2 ^ 63 - 1)

/-- UnpackValue for usize (convert.rs lines 181-185), on a 64-bit target. -/
def unpackUsize : DynValue → Option Int := unpackInteger 0 (2 ^ 64 - 1)

/-- UnpackValue for isize (convert.rs lines 187-191), on a 64-bit target. -/
def unpackIsize : DynValue → Option Int := unpackInteger (-(2 ^ 63)) (2 ^ 63 - 1)

/-- UnpackValue for BigInt (convert.rs lines 193-200): Small is promoted to
arbitrary precision, Big is cloned; non-integers give absence. -/
def unpackBigInt : DynValue → Option Int
  | .int (.small x) => some x
  | .int (.big x) => some x
  | .nonInt => none

/-! ## Bulk dict unpacking (values/types/dict/unpack.rs) -/

/-- A dynamic value as seen by UnpackDictEntries: either a dict with its
entries in iteration order, or any non-dict value (DictRef::unpack_value
returning None). -/
inductive DictOrNot (α : Type) where
  | dict (entries : List (α × α))
  | nonDict

/-- The entry loop of UnpackDictEntries::unpack_value (unpack.rs lines
44-47): each key and value is extracted in iteration order and any single
failure aborts the whole unpack with absence. -/
def unpackEntriesLoop {α κ β : Type} (uk : α → Option κ) (uv : α → Option β) :
    List (α × α) → Option (List (κ × β))
  | [] => some []
  | (k, v) :: rest =>
    match uk k, uv v with
    | some k2, some v2 =>
      match unpackEntriesLoop uk uv rest with
      | some acc => some ((k2, v2) :: acc)
      | none => none
    | _, _ => none

/-- UnpackValue for UnpackDictEntries (unpack.rs lines 41-50). -/
def unpackDictEntries {α κ β : Type} (uk : α → Option κ) (uv : α → Option β) :
    DictOrNot α → Option (List (κ × β))
  | .nonDict => none
  | .dict es => unpackEntriesLoop uk uv es

/-! ## The struct record type (values/types/structs.rs)

StructGen is generic over the field value type V: ValueLike in the code;
the embedding keeps that genericity, taking the field value type and the
value-level operations (equals, compare, hash, unpack) as parameters.
A SmallMap is embedded as its entry list in storage order, with keys
unique by the SmallMap invariant. -/

/-- Result of Struct::from_value on an arbitrary value: either a struct
with its field list in storage order, or any non-struct value. -/
inductive ValueOrStruct (α : Type) where
  | strct (fields : List (String × α))
  | nonStruct

/-- SmallMap::get on the entry list: the value of the unique entry with
the given key, if present. -/
def assocGet {α : Type} (k : String) : List (String × α) → Option α
  | [] => none
  | (k2, v) :: rest => if k2 = k then some v else assocGet k rest

/-- Loop of equals_small_map over the entries of the left map, looking
each key up in the right map and comparing values. -/
def equalsSmallMapGo {α : Type} (eqv : α → α → Except StarlarkError Bool)
    (y : List (String × α)) : List (String × α) → Except StarlarkError Bool
  | [] => .ok true
  | (k, v) :: rest =>
    match assocGet k y with
    | none => .ok false
    | some w => do
      let b ← eqv v w
      if b then equalsSmallMapGo eqv y rest else .ok false

/-- Modelled from the spec: equals_small_map of values/comparison.rs (not
under src) answers false on a length mismatch, then checks that every
entry of the left map has a pairwise-equal entry in the right map;
storage order is irrelevant. -/
def equalsSmallMap {α : Type} (eqv : α → α → Except StarlarkError Bool)
    (x y : List (String × α)) : Except StarlarkError Bool :=
  if x.length = y.length then equalsSmallMapGo eqv y x else .ok false

/-- StructGen::equals (structs.rs lines 178-185): a non-struct other
answers Ok(false); a struct other is compared with equals_small_map. -/
def structEquals {α : Type} (eqv : α → α → Except StarlarkError Bool)
    (fields : List (String × α)) : ValueOrStruct α → Except StarlarkError Bool
  | .nonStruct => .ok false
  | .strct other => equalsSmallMap eqv fields other

/-- Insertion step of an insertion sort of fields by key name. -/
def insertByKey {α : Type} (p : String × α) : List (String × α) → List (String × α)
  | [] => [p]
  | q :: rest => if p.1 ≤ q.1 then p :: q :: rest else q :: insertByKey p rest

/-- Sort a field list by key name, preparing the ordering comparison. -/
def sortByKey {α : Type} : List (String × α) → List (String × α)
  | [] => []
  | p :: rest => insertByKey p (sortByKey rest)

/-- Lexicographic comparison of two sorted field lists: keys compare as
strings, then values compare recursively; a strict prefix is smaller. -/
def lexCompareFields {α : Type} (cmpv : α → α → Except StarlarkError Ordering) :
    List (String × α) → List (String × α) → Except StarlarkError Ordering
  | [], [] => .ok .eq
  | [], _ :: _ => .ok .lt
  | _ :: _, [] => .ok .gt
  | (k1, v1) :: r1, (k2, v2) :: r2 =>
    match compare k1 k2 with
    | .lt => .ok .lt
    | .gt => .ok .gt
    | .eq => do
      let o ← cmpv v1 v2
      match o with
      | .eq => lexCompareFields cmpv r1 r2
      | .lt => .ok .lt
      | .gt => .ok .gt

/-- Modelled from the spec: compare_small_map of values/comparison.rs (not
under src) compares sorted-by-key-name field lists, recursively comparing
values lexicographically. -/
def compareSmallMap {α : Type} (cmpv : α → α → Except StarlarkError Ordering)
    (x y : List (String × α)) : Except StarlarkError Ordering :=
  lexCompareFields cmpv (sortByKey x) (sortByKey y)

/-- StructGen::compare (structs.rs lines 187-197): a non-struct other is a
hard unsupported error; a struct other is compared with compare_small_map. -/
def structCompare {α : Type} (cmpv : α → α → Except StarlarkError Ordering)
    (fields : List (String × α)) : ValueOrStruct α → Except StarlarkError Ordering
  | .nonStruct => .error (.unsupported ("cmp()"))
  | .strct other => compareSmallMap cmpv fields other

/-- Modelled from the spec: StarlarkHasher (not under src) is abstracted as
the sequence of tokens written to it; two values hash identically exactly
when they feed the hasher identical token streams.  keyHash s stands for
hashing the precomputed hash of an interned key string (equal strings give
equal key hashes), intHash for the hash written by an integer value. -/
inductive HashToken where
  | keyHash (s : String)
  | intHash (i : Int)
  deriving DecidableEq

/-- StructGen::write_hash (structs.rs lines 203-209): iterate the fields in
storage order, hashing each key and then recursively hashing its value. -/
def structWriteHash {α : Type} (vh : α → List HashToken) :
    List (String × α) → List HashToken
  | [] => []
  | (k, v) :: rest => HashToken.keyHash k :: (vh v ++ structWriteHash vh rest)

/-- SmallMap insert: an existing key keeps its original position and gets
the new value; a new key is appended at the end. -/
def smallMapInsert {β : Type} (k : String) (v : β) :
    List (String × β) → List (String × β)
  | [] => [(k, v)]
  | (k2, w) :: rest =>
    if k2 = k then (k2, v) :: rest else (k2, w) :: smallMapInsert k v rest

/-- Loop of Freeze for Struct (structs.rs lines 134-137): for each field in
order, freeze the key, then the value, and insert into the accumulating
frozen map; the first freeze error aborts the whole loop. -/
def structFreezeLoop {α β : Type} (fk : String → Except StarlarkError String)
    (fv : α → Except StarlarkError β) :
    List (String × α) → List (String × β) → Except StarlarkError (List (String × β))
  | [], acc => .ok acc
  | (k, v) :: rest, acc => do
    let k2 ← fk k
    let v2 ← fv v
    structFreezeLoop fk fv rest (smallMapInsert k2 v2 acc)

/-- Freeze for Struct (structs.rs lines 131-143), parameterized by the
freezer action on keys and on field values. -/
def structFreeze {α β : Type} (fk : String → Except StarlarkError String)
    (fv : α → Except StarlarkError β) (fields : List (String × α)) :
    Except StarlarkError (List (String × β)) :=
  structFreezeLoop fk fv fields []

/-- Validation loop of StructOf::unpack_value (structs.rs lines 239-242):
run V::unpack_value on every field value, discarding the result; the
first failure aborts with absence. -/
def structOfValidate {α β : Type} (u : α → Option β) : List (String × α) → Option Unit
  | [] => some ()
  | (_, v) :: rest =>
    match u v with
    | some _ => structOfValidate u rest
    | none => none

/-- StructOf::unpack_value (structs.rs lines 236-248): the value must be a
struct and every field must validate; the validated struct keeps its
fields unconverted. -/
def structOfUnpack {α β : Type} (u : α → Option β) :
    ValueOrStruct α → Option (List (String × α))
  | .nonStruct => none
  | .strct fields =>
    match structOfValidate u fields with
    | some _ => some fields
    | none => none

/-- StructOf::to_map (structs.rs lines 260-266): extract every field value
on demand; none models the panic branch of the expect call. -/
def structOfToMap {α β : Type} (u : α → Option β) :
    List (String × α) → Option (List (String × β))
  | [] => some []
  | (k, v) :: rest =>
    match u v, structOfToMap u rest with
    | some b, some acc => some ((k, b) :: acc)
    | _, _ => none

/-! ## Concrete value type for the JSON projection (C9) and concrete
instantiations used by witnesses -/

/-- A concrete dynamic value covering the scalar types exercised by the
struct JSON projection tests: NoneType, bool, int, string, list, struct. -/
inductive Val where
  | vnone
  | vbool (b : Bool)
  | vint (i : Int)
  | vstr (s : String)
  | vlist (xs : List Val)
  | vstruct (fs : List (String × Val))

/-- Modelled from the spec: the JSON escaping of one string character by
the string to_json (not under src): quote, backslash and the control
characters b f n r t are escaped, everything else (the forward slash
included) is passed through. -/
def jsonEscapeChar (c : Char) : String :=
  if c = '\x22' then "\\\x22"
  else if c = '\\' then "\\\\"
  else if c = '\x08' then "\\b"
  else if c = '\x0C' then "\\f"
  else if c = '\n' then "\\n"
  else if c = '\r' then "\\r"
  else if c = '\t' then "\\t"
  else String.singleton c

/-- JSON escaping of a whole string, character by character. -/
def jsonEscape (s : String) : String :=
  String.join (s.toList.map jsonEscapeChar)

mutual

/-- JSON projection of a value.  The vstruct case is StructGen::to_json
(structs.rs lines 160-176): a JSON object with the field names verbatim in
storage order, each value projected recursively.  The scalar and list
cases are modelled from the spec: None to null, booleans to true or false,
integers to decimal, strings JSON-escaped, lists projected elementwise. -/
def Val.toJson : Val → String
  | .vnone => "null"
  | .vbool true => "true"
  | .vbool false => "false"
  | .vint i => toString i
  | .vstr s => "\x22" ++ jsonEscape s ++ "\x22"
  | .vlist xs => "[" ++ (",").intercalate (toJsonList xs) ++ "]"
  | .vstruct fs => "\x7b" ++ (",").intercalate (toJsonFields fs) ++ "\x7d"

/-- JSON projections of the elements of a list value, in order. -/
def toJsonList : List Val → List String
  | [] => []
  | v :: rest => v.toJson :: toJsonList rest

/-- JSON members of a struct in field-storage order, each member being the
verbatim field name, a colon, and the field value projection. -/
def toJsonFields : List (String × Val) → List String
  | [] => []
  | (k, v) :: rest => ("\x22" ++ k ++ "\x22:" ++ v.toJson) :: toJsonFields rest

end

/-- Value-level equals for plain integer field values: never errors, true
exactly on equal integers. -/
def intEquals (i j : Int) : Except StarlarkError Bool := .ok (decide (i = j))

/-- Value-level hash stream for plain integer field values. -/
def intHashTokens (i : Int) : List HashToken := [HashToken.intHash i]

/-- A concrete fallible key freezer that succeeds on every key, used by
witnesses; freezing an interned string keeps its content. -/
def freezeKeyId (k : String) : Except StarlarkError String := .ok k

/-- A concrete fallible value freezer on integers used by witnesses: small
values freeze, large ones fail. -/
def freezeSmallInt (i : Int) : Except StarlarkError Int :=
  if i < 100 then .ok i else .error (.msg ("too big"))

/-- A concrete partial extraction on integers used by witnesses: succeeds
exactly on the nonnegative ones. -/
def unpackNonneg (i : Int) : Option Int :=
  if 0 ≤ i then some i else none

/-! ## Helper lemmas -/

theorem StarlarkInt.toInt_ofInt (x : Int) : (StarlarkInt.ofInt x).toInt = x := by
  unfold StarlarkInt.ofInt
  split <;> rfl

theorem unpackInteger_alloc (lo hi x : Int) (h1 : lo ≤ x) (h2 : x ≤ hi) :
    unpackInteger lo hi (allocIntValue x) = some x := by
  simp [unpackInteger, allocIntValue, StarlarkInt.toInt_ofInt, h1, h2]

theorem structOfValidate_toMap {α β : Type} (u : α → Option β) :
    ∀ fs : List (String × α), structOfValidate u fs = some () →
      (structOfToMap u fs).isSome = true := by
  intro fs
  induction fs with
  | nil => intro h; rfl
  | cons p rest ih =>
    obtain ⟨k, v⟩ := p
    intro h
    simp only [structOfValidate] at h
    simp only [structOfToMap]
    cases hu : u v with
    | none => rw [hu] at h; exact absurd h (by simp)
    | some b =>
      rw [hu] at h
      have := ih h
      cases hm : structOfToMap u rest with
      | none => rw [hm] at this; exact absurd this (by simp)
      | some acc => simp

/-! ## Claim theorems -/

/-- C6: arbitrary-precision extraction is total over dynamic integers:
unpack_value into BigInt succeeds on both the Small and the Big backing
and yields the exact mathematical value of the dynamic integer. -/
theorem unpack_bigint_total_exact (n : StarlarkInt) :
    unpackBigInt (DynValue.int n) = some n.toInt := by
  cases n <;> rfl

/-- C4: a dynamic integer equal to 2 to the 100 extracts as absence, not a
hard error, for the 32-bit and 64-bit native widths, and the non-integer
case is reported identically as absence. -/
theorem unpack_out_of_range_absence :
    unpackU32 (allocIntValue (2 ^ 100)) = none ∧
    unpackU64 (allocIntValue (2 ^ 100)) = none ∧
    unpackI64 (allocIntValue (2 ^ 100)) = none ∧
    unpackUsize (allocIntValue (2 ^ 100)) = none ∧
    unpackIsize (allocIntValue (2 ^ 100)) = none ∧
    unpackU32 DynValue.nonInt = none ∧
    unpackU64 DynValue.nonInt = none ∧
    unpackI64 DynValue.nonInt = none ∧
    unpackU32 (allocIntValue (2 ^ 100)) = unpackU32 DynValue.nonInt ∧
    unpackU64 (allocIntValue (2 ^ 100)) = unpackU64 DynValue.nonInt := by
  decide

/-- C5: integer round-trip: for every supported native width and every
in-range value x of that width, alloc_value followed by unpack_value
returns Some x. -/
theorem int_roundtrip (x : Int) :
    (0 ≤ x → x ≤ 2 ^ 32 - 1 → unpackU32 (allocIntValue x) = some x) ∧
    (0 ≤ x → x ≤ 2 ^ 64 - 1 → unpackU64 (allocIntValue x) = some x) ∧
    (-(2 ^ 63) ≤ x → x ≤ 2 ^ 63 - 1 → unpackI64 (allocIntValue x) = some x) ∧
    (0 ≤ x → x ≤ 2 ^ 64 - 1 → unpackUsize (allocIntValue x) = some x) ∧
    (-(2 ^ 63) ≤ x → x ≤ 2 ^ 63 - 1 → unpackIsize (allocIntValue x) = some x) := by
  refine ⟨fun h1 h2 => ?_, fun h1 h2 => ?_, fun h1 h2 => ?_, fun h1 h2 => ?_, fun h1 h2 => ?_⟩ <;>
    exact unpackInteger_alloc _ _ x h1 h2

/-- C5 witness: the round-trip at the concrete value 42 for every width. -/
theorem int_roundtrip_witness :
    unpackU32 (allocIntValue 42) = some 42 ∧
    unpackU64 (allocIntValue 42) = some 42 ∧
    unpackI64 (allocIntValue 42) = some 42 ∧
    unpackUsize (allocIntValue 42) = some 42 ∧
    unpackIsize (allocIntValue 42) = some 42 :=
  ⟨(int_roundtrip 42).1 (by decide) (by decide),
   (int_roundtrip 42).2.1 (by decide) (by decide),
   (int_roundtrip 42).2.2.1 (by decide) (by decide),
   (int_roundtrip 42).2.2.2.1 (by decide) (by decide),
   (int_roundtrip 42).2.2.2.2 (by decide) (by decide)⟩

/-- C10: comparing a struct against a non-struct value is asymmetric:
equals answers Ok(false), a successful answer, while compare raises the
hard unsupported error. -/
theorem struct_equals_vs_compare_non_struct {α : Type}
    (eqv : α → α → Except StarlarkError Bool)
    (cmpv : α → α → Except StarlarkError Ordering) (fields : List (String × α)) :
    structEquals eqv fields .nonStruct = .ok false ∧
    structCompare cmpv fields .nonStruct = .error (.unsupported ("cmp()")) :=
  ⟨rfl, rfl⟩

/-- C1 divergence witness: two structs built from the same key/value pairs
in different insertion orders are equal per struct equality, yet
write_hash feeds the hasher two different token streams, so their hashes
differ: the equal-values-must-hash-equal law fails on the code. -/
theorem struct_equal_but_hash_stream_differs :
    structEquals intEquals [(("a"), (1 : Int)), (("b"), 2)]
      (.strct [(("b"), 2), (("a"), 1)]) = .ok true ∧
    structWriteHash intHashTokens [(("a"), (1 : Int)), (("b"), 2)] ≠
      structWriteHash intHashTokens [(("b"), 2), (("a"), 1)] := by
  exact ⟨by decide, by decide⟩

/-- C3: a StructOf successfully produced by unpack_value, which validated
every field with V::unpack_value, satisfies that to_map extracts every
field again successfully: the panic branch inside to_map is unreachable. -/
theorem struct_of_to_map_never_fails {α β : Type} (u : α → Option β)
    (v : ValueOrStruct α) (fs : List (String × α))
    (h : structOfUnpack u v = some fs) : (structOfToMap u fs).isSome = true := by
  cases v with
  | nonStruct => exact absurd h (by simp [structOfUnpack])
  | strct fields =>
    simp only [structOfUnpack] at h
    cases hv : structOfValidate u fields with
    | none => rw [hv] at h; exact absurd h (by simp)
    | some u0 =>
      rw [hv] at h
      simp at h
      subst h
      exact structOfValidate_toMap u fields hv

/-- C3 witness: a concrete validated StructOf whose to_map succeeds. -/
theorem struct_of_to_map_never_fails_witness :
    (structOfToMap unpackNonneg [(("a"), (5 : Int)), (("b"), 7)]).isSome = true :=
  struct_of_to_map_never_fails unpackNonneg
    (.strct [(("a"), (5 : Int)), (("b"), 7)]) _ (by decide)

theorem forall2_mem_left {γ δ : Type} {R : γ → δ → Prop} :
    ∀ {xs : List γ} {ys : List δ}, List.Forall₂ R xs ys → ∀ p ∈ xs, ∃ q, R p q := by
  intro xs ys h
  induction h with
  | nil => intro p hp; exact absurd hp (by simp)
  | cons h1 _ ih =>
    intro p hp
    rcases List.mem_cons.mp hp with heq | hmem
    · subst heq; exact ⟨_, h1⟩
    · exact ih p hmem

theorem unpackEntriesLoop_eq_some_iff {α κ β : Type} (uk : α → Option κ) (uv : α → Option β) :
    ∀ (es : List (α × α)) (l : List (κ × β)),
      unpackEntriesLoop uk uv es = some l ↔
        List.Forall₂ (fun p q => uk p.1 = some q.1 ∧ uv p.2 = some q.2) es l := by
  intro es
  induction es with
  | nil =>
    intro l
    simp [unpackEntriesLoop, List.forall₂_nil_left_iff, eq_comm]
  | cons p rest ih =>
    obtain ⟨k, v⟩ := p
    intro l
    simp only [unpackEntriesLoop]
    cases hk : uk k with
    | none =>
      simp only [List.forall₂_cons_left_iff]
      constructor
      · intro h; exact absurd h (by simp)
      · rintro ⟨q, l2, ⟨hq1, _⟩, _, _⟩; rw [hk] at hq1; exact absurd hq1 (by simp)
    | some k2 =>
      cases hv : uv v with
      | none =>
        simp only [List.forall₂_cons_left_iff]
        constructor
        · intro h; exact absurd h (by simp)
        · rintro ⟨q, l2, ⟨_, hq2⟩, _, _⟩; rw [hv] at hq2; exact absurd hq2 (by simp)
      | some v2 =>
        cases hrest : unpackEntriesLoop uk uv rest with
        | none =>
          simp only [List.forall₂_cons_left_iff]
          constructor
          · intro h; exact absurd h (by simp)
          · rintro ⟨q, l2, _, hf2, _⟩
            have := (ih l2).mpr hf2
            rw [hrest] at this
            exact absurd this (by simp)
        | some acc =>
          simp only [List.forall₂_cons_left_iff, Option.some.injEq]
          constructor
          · intro h
            exact ⟨(k2, v2), acc, ⟨hk, hv⟩, (ih acc).mp hrest, h.symm⟩
          · rintro ⟨q, l2, ⟨hq1, hq2⟩, hf2, hl⟩
            have hql : q = (k2, v2) := by
              rw [hk] at hq1; rw [hv] at hq2
              cases q
              simp only [Option.some.injEq] at hq1 hq2
              simp [hq1, hq2]
            have : unpackEntriesLoop uk uv rest = some l2 := (ih l2).mpr hf2
            rw [hrest] at this
            simp only [Option.some.injEq] at this
            subst this
            rw [hl, hql]

/-- C7: bulk dict unpacking is atomic and order-preserving: a non-dict
value gives absence; success yields exactly the entrywise extraction of
the source dict in its iteration order (in particular the same length,
with no deduplication); a single failing entry aborts the whole unpack
with absence, never a partial sequence. -/
theorem unpack_dict_entries_atomic_order_preserving {α κ β : Type}
    (uk : α → Option κ) (uv : α → Option β) :
    (unpackDictEntries uk uv .nonDict = (none : Option (List (κ × β)))) ∧
    (∀ (es : List (α × α)) (l : List (κ × β)),
       unpackDictEntries uk uv (.dict es) = some l ↔
         List.Forall₂ (fun p q => uk p.1 = some q.1 ∧ uv p.2 = some q.2) es l) ∧
    (∀ (es : List (α × α)) (p : α × α), p ∈ es → (uk p.1 = none ∨ uv p.2 = none) →
       unpackDictEntries uk uv (.dict es) = (none : Option (List (κ × β)))) := by
  refine ⟨rfl, fun es l => unpackEntriesLoop_eq_some_iff uk uv es l, ?_⟩
  intro es p hmem hfail
  cases hres : unpackDictEntries uk uv (.dict es) with
  | none => rfl
  | some l =>
    have hf2 := (unpackEntriesLoop_eq_some_iff uk uv es l).mp hres
    obtain ⟨q, hq1, hq2⟩ := forall2_mem_left hf2 p hmem
    rcases hfail with hfk | hfv
    · rw [hfk] at hq1; exact absurd hq1 (by simp)
    · rw [hfv] at hq2; exact absurd hq2 (by simp)

/-- C7 witness: a two-entry dict whose second entry fails key extraction
unpacks to absence as a whole. -/
theorem unpack_dict_entries_witness :
    unpackDictEntries unpackNonneg unpackNonneg
      (.dict [((1 : Int), 2), ((-3 : Int), 4)]) = none :=
  (unpack_dict_entries_atomic_order_preserving unpackNonneg unpackNonneg).2.2
    [((1 : Int), 2), ((-3 : Int), 4)] ((-3 : Int), 4) (by decide) (Or.inl (by decide))

theorem except_bind_ok {ε γ δ : Type} (a : γ) (f : γ → Except ε δ) :
    (Except.ok a >>= f) = f a := rfl

theorem except_bind_error {ε γ δ : Type} (e : ε) (f : γ → Except ε δ) :
    ((Except.error e : Except ε γ) >>= f) = .error e := rfl

theorem smallMapInsert_not_mem {β : Type} (k : String) (v : β) :
    ∀ acc : List (String × β), k ∉ acc.map Prod.fst →
      smallMapInsert k v acc = acc ++ [(k, v)] := by
  intro acc
  induction acc with
  | nil => intro _; rfl
  | cons q rest ih =>
    obtain ⟨k2, w⟩ := q
    intro h
    simp only [List.map_cons, List.mem_cons] at h
    push_neg at h
    obtain ⟨hne, hrest⟩ := h
    simp only [smallMapInsert]
    rw [if_neg (Ne.symm hne), ih hrest]
    rfl

theorem structFreezeLoop_ok {α β : Type} (fk : String → Except StarlarkError String)
    (fv : α → Except StarlarkError β) (hpres : ∀ k r, fk k = .ok r → r = k) :
    ∀ (fs : List (String × α)) (acc : List (String × β)) (l : List (String × β)),
      (fs.map Prod.fst).Nodup →
      (∀ p ∈ fs, p.1 ∉ acc.map Prod.fst) →
      structFreezeLoop fk fv fs acc = .ok l →
      ∃ l2, l = acc ++ l2 ∧
        List.Forall₂ (fun p q => fk p.1 = .ok q.1 ∧ fv p.2 = .ok q.2) fs l2 := by
  intro fs
  induction fs with
  | nil =>
    intro acc l _ _ h
    simp only [structFreezeLoop] at h
    cases h
    exact ⟨[], by simp, List.Forall₂.nil⟩
  | cons p rest ih =>
    obtain ⟨k, v⟩ := p
    intro acc l hnd hdisj h
    simp only [structFreezeLoop] at h
    cases hfk : fk k with
    | error e => rw [hfk, except_bind_error] at h; cases h
    | ok k2 =>
      have hk2 : k2 = k := hpres k k2 hfk
      subst hk2
      rw [hfk, except_bind_ok] at h
      cases hfv : fv v with
      | error e => rw [hfv, except_bind_error] at h; cases h
      | ok v2 =>
        rw [hfv, except_bind_ok] at h
        have hknotin : k2 ∉ acc.map Prod.fst := hdisj (k2, v) (by simp)
        rw [smallMapInsert_not_mem k2 v2 acc hknotin] at h
        simp only [List.map_cons] at hnd
        have hnd2 := List.nodup_cons.mp hnd
        have hdisj2 : ∀ p ∈ rest, p.1 ∉ (acc ++ [(k2, v2)]).map Prod.fst := by
          intro p hp
          simp only [List.map_append, List.mem_append, List.map_cons, List.map_nil,
            List.mem_singleton]
          push_neg
          constructor
          · exact hdisj p (List.mem_cons_of_mem _ hp)
          · intro heq
            exact hnd2.1 (heq ▸ List.mem_map_of_mem Prod.fst hp)
        obtain ⟨l2, hl, hf2⟩ := ih (acc ++ [(k2, v2)]) l hnd2.2 hdisj2 h
        exact ⟨(k2, v2) :: l2, by simp [hl], List.Forall₂.cons ⟨hfk, hfv⟩ hf2⟩

theorem structFreezeLoop_err {α β : Type} (fk : String → Except StarlarkError String)
    (fv : α → Except StarlarkError β) :
    ∀ (fs : List (String × α)) (acc : List (String × β)) (p : String × α), p ∈ fs →
      ((∃ e, fk p.1 = .error e) ∨ (∃ e, fv p.2 = .error e)) →
      ∃ e, structFreezeLoop fk fv fs acc = .error e := by
  intro fs
  induction fs with
  | nil => intro acc p hp; exact absurd hp (by simp)
  | cons q rest ih =>
    obtain ⟨k, v⟩ := q
    intro acc p hp hfail
    simp only [structFreezeLoop]
    cases hfk : fk k with
    | error e => exact ⟨e, by rw [except_bind_error]⟩
    | ok k2 =>
      rw [except_bind_ok]
      cases hfv : fv v with
      | error e => exact ⟨e, by rw [except_bind_error]⟩
      | ok v2 =>
        rw [except_bind_ok]
        rcases List.mem_cons.mp hp with heq | hmem
        · subst heq
          rcases hfail with ⟨e, he⟩ | ⟨e, he⟩
          · rw [hfk] at he; cases he
          · rw [hfv] at he; cases he
        · exact ih (smallMapInsert k2 v2 acc) p hmem hfail

/-- C8: freezing a struct preserves the field order exactly, freezing each
key and each value, and a freeze failure on any component aborts the whole
operation with a propagated error, never a partial frozen struct.  The
hypotheses record the SmallMap invariant (unique keys) and that freezing
an interned key string preserves its content. -/
theorem struct_freeze_order_preserving_atomic {α β : Type}
    (fk : String → Except StarlarkError String) (fv : α → Except StarlarkError β)
    (fs : List (String × α))
    (hpres : ∀ k r, fk k = .ok r → r = k)
    (hnd : (fs.map Prod.fst).Nodup) :
    (∀ l, structFreeze fk fv fs = .ok l →
       List.Forall₂ (fun p q => fk p.1 = .ok q.1 ∧ fv p.2 = .ok q.2) fs l) ∧
    (∀ p ∈ fs, ((∃ e, fk p.1 = .error e) ∨ (∃ e, fv p.2 = .error e)) →
       ∃ e, structFreeze fk fv fs = .error e) := by
  constructor
  · intro l h
    obtain ⟨l2, hl, hf2⟩ :=
      structFreezeLoop_ok fk fv hpres fs [] l hnd (by simp) h
    simpa [hl] using hf2
  · intro p hp hfail
    exact structFreezeLoop_err fk fv fs [] p hp hfail

/-- C8 witness: a concrete two-field struct freezes to the same field list
in the same order, each value passed through the value freezer. -/
theorem struct_freeze_witness :
    List.Forall₂ (fun p q => freezeKeyId p.1 = .ok q.1 ∧ freezeSmallInt p.2 = .ok q.2)
      [(("a"), (1 : Int)), (("b"), 2)] [(("a"), (1 : Int)), (("b"), 2)] :=
  (struct_freeze_order_preserving_atomic freezeKeyId freezeSmallInt
      [(("a"), (1 : Int)), (("b"), 2)]
      (fun k r h => (Except.ok.inj h).symm) (by decide)).1
    [(("a"), (1 : Int)), (("b"), 2)] (by decide)

theorem toJsonFields_eq_map : ∀ fs : List (String × Val),
    toJsonFields fs = fs.map (fun p => "\x22" ++ p.1 ++ "\x22:" ++ p.2.toJson) := by
  intro fs
  induction fs with
  | nil => rfl
  | cons p rest ih =>
    obtain ⟨k, v⟩ := p
    simp only [toJsonFields, List.map_cons, ih]

/-- C9: the struct JSON projection serializes to a JSON object whose
member names are the field names verbatim, in field-storage order, each
member value being that field value JSON projection; and the scalar and
nested projections behave as the spec test scenarios require: None to
null, booleans to true and false, integers to decimal, strings escaped
(quote, backslash, the control characters b f n r t) with the forward
slash left unescaped, nested structs and lists projected recursively. -/
theorem struct_to_json_spec :
    (∀ fs : List (String × Val), Val.toJson (.vstruct fs) =
       "\x7b" ++ (",").intercalate
         (fs.map (fun p => "\x22" ++ p.1 ++ "\x22:" ++ p.2.toJson)) ++ "\x7d") ∧
    Val.toJson (.vstruct [(("key"), .vnone)]) = "\x7b\x22key\x22:null\x7d" ∧
    Val.toJson (.vstruct [(("key"), .vbool true)]) = "\x7b\x22key\x22:true\x7d" ∧
    Val.toJson (.vstruct [(("key"), .vbool false)]) = "\x7b\x22key\x22:false\x7d" ∧
    Val.toJson (.vstruct [(("key"), .vint 42)]) = "\x7b\x22key\x22:42\x7d" ∧
    Val.toJson (.vstruct [(("key"), .vstr ("value\x22"))]) =
      "\x7b\x22key\x22:\x22value\\\x22\x22\x7d" ∧
    Val.toJson (.vstruct [(("key"), .vstr ("value\\"))]) =
      "\x7b\x22key\x22:\x22value\\\\\x22\x7d" ∧
    Val.toJson (.vstruct [(("key"), .vstr ("value/"))]) =
      "\x7b\x22key\x22:\x22value/\x22\x7d" ∧
    Val.toJson (.vstruct [(("key"), .vstr ("value\x08"))]) =
      "\x7b\x22key\x22:\x22value\\b\x22\x7d" ∧
    Val.toJson (.vstruct [(("key"), .vstr ("value\x0C"))]) =
      "\x7b\x22key\x22:\x22value\\f\x22\x7d" ∧
    Val.toJson (.vstruct [(("key"), .vstr ("value\n"))]) =
      "\x7b\x22key\x22:\x22value\\n\x22\x7d" ∧
    Val.toJson (.vstruct [(("key"), .vstr ("value\r"))]) =
      "\x7b\x22key\x22:\x22value\\r\x22\x7d" ∧
    Val.toJson (.vstruct [(("key"), .vstr ("value\t"))]) =
      "\x7b\x22key\x22:\x22value\\t\x22\x7d" ∧
    Val.toJson (.vstruct [(("foo"), .vint 42), (("bar"), .vstr ("some"))]) =
      "\x7b\x22foo\x22:42,\x22bar\x22:\x22some\x22\x7d" ∧
    Val.toJson (.vstruct [(("foo"), .vstruct [(("bar"), .vstr ("some"))])]) =
      "\x7b\x22foo\x22:\x7b\x22bar\x22:\x22some\x22\x7d\x7d" ∧
    Val.toJson (.vstruct [(("foo"), .vlist [.vstruct [(("bar"), .vstr ("some"))]])]) =
      "\x7b\x22foo\x22:[\x7b\x22bar\x22:\x22some\x22\x7d]\x7d" := by
  refine ⟨?_, ?_, ?_, ?_, ?_, ?_, ?_, ?_, ?_, ?_, ?_, ?_, ?_, ?_, ?_, ?_⟩
  · intro fs
    rw [Val.toJson, toJsonFields_eq_map]
  all_goals decide

theorem assocGet_mem {α : Type} {k : String} {v : α} :
    ∀ {fs : List (String × α)}, assocGet k fs = some v → (k, v) ∈ fs := by
  intro fs
  induction fs with
  | nil => intro h; cases h
  | cons q rest ih =>
    obtain ⟨k2, w⟩ := q
    intro h
    simp only [assocGet] at h
    by_cases hk : k2 = k
    · rw [if_pos hk] at h
      injection h with h2
      subst hk
      subst h2
      exact List.mem_cons_self _ _
    · rw [if_neg hk] at h
      exact List.mem_cons_of_mem _ (ih h)

theorem assocGet_isSome_iff {α : Type} (k : String) :
    ∀ fs : List (String × α), (assocGet k fs).isSome = true ↔ k ∈ fs.map Prod.fst := by
  intro fs
  induction fs with
  | nil => simp [assocGet]
  | cons q rest ih =>
    obtain ⟨k2, w⟩ := q
    by_cases h : k2 = k
    · subst h
      simp [assocGet]
    · simp only [assocGet, if_neg h, List.map_cons, List.mem_cons]
      rw [ih]
      constructor
      · intro hm; exact Or.inr hm
      · rintro (heq | hm)
        · exact absurd heq.symm h
        · exact hm

theorem assocGet_of_nodup_mem {α : Type} :
    ∀ {fs : List (String × α)}, (fs.map Prod.fst).Nodup →
      ∀ {k : String} {v : α}, (k, v) ∈ fs → assocGet k fs = some v := by
  intro fs
  induction fs with
  | nil => intro _ k v h; exact absurd h (by simp)
  | cons q rest ih =>
    obtain ⟨k2, w⟩ := q
    intro hnd k v hmem
    simp only [List.map_cons, List.nodup_cons] at hnd
    rcases List.mem_cons.mp hmem with heq | hmem2
    · cases heq
      simp [assocGet]
    · have hkne : k2 ≠ k := by
        intro hkk
        exact hnd.1 (hkk ▸ List.mem_map_of_mem Prod.fst hmem2)
      simp only [assocGet, if_neg hkne]
      exact ih hnd.2 hmem2

theorem equalsSmallMapGo_ok_true_iff {α : Type} (eqv : α → α → Except StarlarkError Bool)
    (y : List (String × α)) :
    ∀ x : List (String × α), equalsSmallMapGo eqv y x = .ok true ↔
      ∀ p ∈ x, ∃ w, assocGet p.1 y = some w ∧ eqv p.2 w = .ok true := by
  intro x
  induction x with
  | nil => simp [equalsSmallMapGo]
  | cons p rest ih =>
    obtain ⟨k, v⟩ := p
    simp only [equalsSmallMapGo]
    cases hg : assocGet k y with
    | none =>
      constructor
      · intro h; cases h
      · intro h
        obtain ⟨w, hw, _⟩ := h (k, v) (List.mem_cons_self _ _)
        rw [hg] at hw
        cases hw
    | some w =>
      show (eqv v w >>= fun b =>
          if b = true then equalsSmallMapGo eqv y rest else Except.ok false) =
            Except.ok true ↔ _
      cases heq : eqv v w with
      | error e =>
        rw [except_bind_error]
        constructor
        · intro h; cases h
        · intro h
          obtain ⟨w2, hw2, heq2⟩ := h (k, v) (List.mem_cons_self _ _)
          rw [hg] at hw2
          injection hw2 with hww
          subst hww
          rw [heq] at heq2
          cases heq2
      | ok b =>
        rw [except_bind_ok]
        cases b with
        | false =>
          simp only [Bool.false_eq_true, if_false]
          constructor
          · intro h
            injection h with hb
            cases hb
          · intro h
            obtain ⟨w2, hw2, heq2⟩ := h (k, v) (List.mem_cons_self _ _)
            rw [hg] at hw2
            injection hw2 with hww
            subst hww
            rw [heq] at heq2
            injection heq2 with hb
            cases hb
        | true =>
          simp only [if_true]
          rw [ih]
          constructor
          · intro h p hp
            rcases List.mem_cons.mp hp with hpe | hpm
            · subst hpe
              exact ⟨w, hg, heq⟩
            · exact h p hpm
          · intro h p hp
            exact h p (List.mem_cons_of_mem _ hp)

/-- C2: struct equality is order-independent: two structs with unique keys
(the SmallMap invariant) are equal exactly when they have the same set of
keys and, for every key, pairwise-equal field values; the right-hand side
is invariant under any permutation of the storage order of either field
list. -/
theorem struct_equals_order_independent {α : Type}
    (eqv : α → α → Except StarlarkError Bool) (fs1 fs2 : List (String × α))
    (h1 : (fs1.map Prod.fst).Nodup) (h2 : (fs2.map Prod.fst).Nodup) :
    structEquals eqv fs1 (.strct fs2) = .ok true ↔
      ((∀ k, (assocGet k fs1).isSome = true ↔ (assocGet k fs2).isSome = true) ∧
       (∀ k v1 v2, assocGet k fs1 = some v1 → assocGet k fs2 = some v2 →
          eqv v1 v2 = .ok true)) := by
  simp only [structEquals, equalsSmallMap]
  constructor
  · intro h
    by_cases hlen : fs1.length = fs2.length
    · rw [if_pos hlen] at h
      have hcov := (equalsSmallMapGo_ok_true_iff eqv fs2 fs1).mp h
      have hsub : ∀ k0, k0 ∈ fs1.map Prod.fst → k0 ∈ fs2.map Prod.fst := by
        intro k0 hk0
        obtain ⟨p, hp, hfst⟩ := List.mem_map.mp hk0
        obtain ⟨w, hw, _⟩ := hcov p hp
        subst hfst
        exact (assocGet_isSome_iff p.1 fs2).mp (by rw [hw]; rfl)
      have hset : (fs1.map Prod.fst).toFinset = (fs2.map Prod.fst).toFinset := by
        apply Finset.eq_of_subset_of_card_le
        · intro a ha
          exact List.mem_toFinset.mpr (hsub a (List.mem_toFinset.mp ha))
        · rw [List.toFinset_card_of_nodup h1, List.toFinset_card_of_nodup h2]
          simp [hlen]
      constructor
      · intro k
        rw [assocGet_isSome_iff, assocGet_isSome_iff, ← List.mem_toFinset, hset,
          List.mem_toFinset]
      · intro k v1 v2 hv1 hv2
        obtain ⟨w, hw, heqw⟩ := hcov (k, v1) (assocGet_mem hv1)
        have : some v2 = some w := hv2.symm.trans hw
        injection this with hvw
        subst hvw
        exact heqw
    · rw [if_neg hlen] at h
      injection h with hb
      cases hb
  · rintro ⟨hks, hpw⟩
    have hset : (fs1.map Prod.fst).toFinset = (fs2.map Prod.fst).toFinset := by
      ext a
      rw [List.mem_toFinset, List.mem_toFinset, ← assocGet_isSome_iff,
        ← assocGet_isSome_iff]
      exact hks a
    have hlen : fs1.length = fs2.length := by
      have c1 := List.toFinset_card_of_nodup h1
      have c2 := List.toFinset_card_of_nodup h2
      rw [hset, c2] at c1
      simpa using c1.symm
    rw [if_pos hlen]
    apply (equalsSmallMapGo_ok_true_iff eqv fs2 fs1).mpr
    intro p hp
    have hget1 : assocGet p.1 fs1 = some p.2 := assocGet_of_nodup_mem h1 hp
    have hs2 : (assocGet p.1 fs2).isSome = true :=
      (hks p.1).mp (by rw [hget1]; rfl)
    obtain ⟨w, hw⟩ := Option.isSome_iff_exists.mp hs2
    exact ⟨w, hw, hpw p.1 p.2 w hget1 hw⟩

/-- C2 witness: two structs built from the same key/value pairs in
different insertion orders are equal, hence have the same key set and
pairwise-equal values. -/
theorem struct_equals_order_independent_witness :
    (∀ k, (assocGet k [(("a"), (1 : Int)), (("b"), 2)]).isSome = true ↔
          (assocGet k [(("b"), (2 : Int)), (("a"), 1)]).isSome = true) ∧
    (∀ k v1 v2, assocGet k [(("a"), (1 : Int)), (("b"), 2)] = some v1 →
        assocGet k [(("b"), (2 : Int)), (("a"), 1)] = some v2 →
        intEquals v1 v2 = .ok true) :=
  (struct_equals_order_independent intEquals
      [(("a"), (1 : Int)), (("b"), 2)] [(("b"), (2 : Int)), (("a"), 1)]
      (by decide) (by decide)).mp (by decide)
